import Mathlib

/-!
Verification of the streamforge stream-processor core against its
natural-language specification.

The Rust sources are shallowly embedded as Lean functions:
* `run_processing_worker` / `worker_loop` embed the batching loop of
  `StreamProcessor::run_processing_worker`
  (src/apps/stream-processor/src/processor.rs, lines 185-235); the
  nondeterministic outcome of each `tokio::time::timeout(batch_timeout,
  rx.recv())` call (does the next message arrive in time or does the
  timer fire first?) is resolved by a boolean oracle indexed by a
  counter of timed waits.
* `worker_loop_timed` embeds the same loop with explicit (natural
  number) arrival times so that flush latencies can be stated.
* `upsertRow`, `store_processed_message`, `store_processed_messages`
  embed the SQL upsert and transaction logic of
  src/apps/stream-processor/src/storage.rs.
* `get_consumer_lag` and `send_batch_messages` embed
  src/apps/stream-processor/src/kafka.rs.
* `start_processing`, `stop_processing`, `get_processing_status` embed
  the gRPC handlers of src/services/stream-processor/src/main.rs.
* `process_message_with_retry` models the retry / dead-letter routing of
  `MessageProcessor::process_message`, whose file is not in the source
  tree; it is modelled from the specification (section 4.3).
-/

/-- Mirrors `KafkaMessage` (processor.rs lines 327-334): topic, partition,
offset, payload bytes, timestamp.  Byte values are represented as `Nat`,
the machine integers as `Int`. -/
structure KafkaMessage where
  topic : String
  partition : Int
  offset : Int
  payload : List Nat
  timestamp : Int
deriving DecidableEq, Repr

/-- The batching loop of `run_processing_worker` (processor.rs lines
197-224), one step per iteration of the Rust `while let` loop.

`batch` is the accumulated open batch; the list argument is the sequence
of messages still to be delivered on the channel, with channel closure
after the last one.  `oracle k` resolves the k-th timed wait
(`timeout(batch_timeout, rx.recv())`): `true` means the timer fires
before the next message arrives, `false` means the next message arrives
within `batch_timeout`.

Returned is the list of batches handed to `process_batch`, in order:
* head of loop: `rx.recv()` with no timer; on `None` (channel closed,
  input exhausted) the loop exits and the non-empty remainder is flushed
  (lines 226-231);
* after pushing the received message, if `batch_size <= len` the batch
  is flushed and cleared (lines 201-205);
* otherwise one timed wait: on timeout the non-empty batch is flushed
  (lines 213-221); on a message it is pushed with no size check (lines
  209-211); on `None` the loop breaks and the remainder is flushed.
  When no further message exists, the timer path (flush, then the
  untimed recv observes closure with an empty batch) and the closure
  path (break, final flush) both flush exactly the current batch. -/
def worker_loop (batchSize : Nat) (oracle : Nat → Bool) (k : Nat)
    (batch : List KafkaMessage) :
    List KafkaMessage → List (List KafkaMessage)
  | [] => if batch.isEmpty then [] else [batch]
  | [m] =>
    let batch1 := batch ++ [m]
    if batchSize ≤ batch1.length then
      batch1 :: worker_loop batchSize oracle (k + 1) [] []
    else
      [batch1]
  | m :: m2 :: rest2 =>
    let batch1 := batch ++ [m]
    if batchSize ≤ batch1.length then
      batch1 :: worker_loop batchSize oracle (k + 1) [] (m2 :: rest2)
    else if oracle k then
      batch1 :: worker_loop batchSize oracle (k + 1) [] (m2 :: rest2)
    else
      worker_loop batchSize oracle (k + 1) (batch1 ++ [m2]) rest2

/-- Entry point of the worker loop: empty batch, timed-wait counter 0
(processor.rs line 194: `let mut batch = Vec::new();`). -/
def run_processing_worker (batchSize : Nat) (oracle : Nat → Bool)
    (input : List KafkaMessage) : List (List KafkaMessage) :=
  worker_loop batchSize oracle 0 [] input

theorem worker_loop_flatten (batchSize : Nat) (oracle : Nat → Bool) :
    ∀ n (k : Nat) (batch input : List KafkaMessage), input.length ≤ n →
      (worker_loop batchSize oracle k batch input).flatten = batch ++ input := by
  intro n
  induction n with
  | zero =>
    intro k batch input hlen
    have : input = [] := List.eq_nil_of_length_eq_zero (Nat.le_zero.mp hlen)
    subst this
    by_cases hb : batch.isEmpty
    · simp [worker_loop, hb, List.isEmpty_iff.mp hb]
    · simp [worker_loop, hb]
  | succ n ih =>
    intro k batch input hlen
    match input with
    | [] =>
      by_cases hb : batch.isEmpty
      · simp [worker_loop, hb, List.isEmpty_iff.mp hb]
      · simp [worker_loop, hb]
    | [m] =>
      simp only [worker_loop]
      by_cases hfull : batchSize ≤ (batch ++ [m]).length
      · simp [hfull, worker_loop]
      · simp [hfull]
    | m :: m2 :: rest2 =>
      simp only [worker_loop]
      have hlen2 : (m2 :: rest2).length ≤ n := by
        simp only [List.length_cons] at hlen ⊢
        omega
      by_cases hfull : batchSize ≤ (batch ++ [m]).length
      · simp only [hfull, if_true, List.flatten_cons]
        rw [ih (k + 1) [] (m2 :: rest2) hlen2]
        simp
      · rw [if_neg hfull]
        by_cases htime : oracle k = true
        · rw [if_pos htime, List.flatten_cons,
            ih (k + 1) [] (m2 :: rest2) hlen2]
          simp
        · rw [if_neg htime,
            ih (k + 1) ((batch ++ [m]) ++ [m2]) rest2
              (by simpa using Nat.le_of_succ_le hlen2)]
          simp

/-- C1: for every finite message sequence delivered to a worker's channel
followed by channel closure, and every resolution of the timed waits, the
concatenation of the batches handed to `process_batch` is exactly the
input sequence: no message is dropped or duplicated, and the partial
batch left at closure is flushed before the worker terminates. -/
theorem run_processing_worker_no_loss_no_dup (batchSize : Nat)
    (oracle : Nat → Bool) (input : List KafkaMessage) :
    (run_processing_worker batchSize oracle input).flatten = input := by
  simpa using
    worker_loop_flatten batchSize oracle input.length 0 [] input (Nat.le_refl _)

/-- A concrete message used in counterexamples and witnesses. -/
def mkMsg (o : Int) : KafkaMessage :=
  { topic := "events", partition := 0, offset := o, payload := [], timestamp := 0 }

theorem worker_loop_length_le (batchSize : Nat) (oracle : Nat → Bool) :
    ∀ n (k : Nat) (batch input : List KafkaMessage), input.length ≤ n →
      batch.length ≤ batchSize →
      ∀ b ∈ worker_loop batchSize oracle k batch input,
        b.length ≤ batchSize + 1 := by
  intro n
  induction n with
  | zero =>
    intro k batch input hlen hbatch b hb
    have : input = [] := List.eq_nil_of_length_eq_zero (Nat.le_zero.mp hlen)
    subst this
    simp only [worker_loop] at hb
    by_cases hemp : batch.isEmpty
    · simp [hemp] at hb
    · rw [if_neg hemp, List.mem_singleton] at hb
      subst hb
      omega
  | succ n ih =>
    intro k batch input hlen hbatch b hb
    match input with
    | [] =>
      simp only [worker_loop] at hb
      by_cases hemp : batch.isEmpty
      · simp [hemp] at hb
      · rw [if_neg hemp, List.mem_singleton] at hb
        subst hb
        omega
    | [m] =>
      simp only [worker_loop] at hb
      by_cases hfull : batchSize ≤ (batch ++ [m]).length
      · rw [if_pos hfull] at hb
        rcases List.mem_cons.mp hb with hb1 | hb2
        · subst hb1
          simp only [List.length_append, List.length_singleton]
          omega
        · exact ih (k + 1) [] [] (by simp) (by simp) b hb2
      · rw [if_neg hfull] at hb
        rcases List.mem_singleton.mp hb with hb1
        subst hb1
        simp only [List.length_append, List.length_singleton] at *
        omega
    | m :: m2 :: rest2 =>
      have hlen2 : (m2 :: rest2).length ≤ n := by
        simp only [List.length_cons] at hlen ⊢
        omega
      simp only [worker_loop] at hb
      by_cases hfull : batchSize ≤ (batch ++ [m]).length
      · rw [if_pos hfull] at hb
        rcases List.mem_cons.mp hb with hb1 | hb2
        · subst hb1
          simp only [List.length_append, List.length_singleton]
          omega
        · exact ih (k + 1) [] (m2 :: rest2) hlen2 (by simp) b hb2
      · rw [if_neg hfull] at hb
        have hlt : batch.length + 1 < batchSize := by
          simpa using Nat.lt_of_not_le hfull
        by_cases htime : oracle k = true
        · rw [if_pos htime] at hb
          rcases List.mem_cons.mp hb with hb1 | hb2
          · subst hb1
            simp only [List.length_append, List.length_singleton]
            omega
          · exact ih (k + 1) [] (m2 :: rest2) hlen2 (by simp) b hb2
        · rw [if_neg htime] at hb
          refine ih (k + 1) ((batch ++ [m]) ++ [m2]) rest2
            (by simpa using Nat.le_of_succ_le hlen2) ?_ b hb
          simp only [List.length_append, List.length_singleton]
          omega

/-- C3 counterexample: with `batch_size = 2` and three messages arriving
within the inactivity window, the worker flushes a single batch of three
messages, exceeding `batch_size`.  The message received inside the timed
wait (processor.rs line 209-211) is pushed without a size check, so the
size threshold is only tested after every other receive. -/
theorem batch_size_exceeded_cex :
    (run_processing_worker 2 (fun _ => false)
        [mkMsg 0, mkMsg 1, mkMsg 2]).map List.length = [3] ∧ 2 < 3 := by
  constructor
  · rfl
  · decide

/-- C3 amended: every batch the worker hands to `process_batch` contains
at most `batch_size + 1` records (the size check runs only after the
untimed receive, so the message taken inside the timed wait can push a
batch one past the threshold, but never further). -/
theorem batch_size_bound (batchSize : Nat) (oracle : Nat → Bool)
    (input : List KafkaMessage) (b : List KafkaMessage)
    (hb : b ∈ run_processing_worker batchSize oracle input) :
    b.length ≤ batchSize + 1 :=
  worker_loop_length_le batchSize oracle input.length 0 [] input
    (Nat.le_refl _) (by simp) b hb

/-- Witness for `batch_size_bound` at a concrete input. -/
theorem batch_size_bound_witness :
    [mkMsg 0] ∈ run_processing_worker 1 (fun _ => false) [mkMsg 0] ∧
      [mkMsg 0].length ≤ 1 + 1 :=
  ⟨by decide, batch_size_bound 1 (fun _ => false) [mkMsg 0] [mkMsg 0] (by decide)⟩

/-- The batching loop of `run_processing_worker` with explicit time.
Messages are paired with their (nondecreasing) channel-arrival times,
`closeTime` is the instant the channel is closed (after the last
arrival), and `process_batch` is treated as instantaneous, so that the
worker is always waiting on a receive when a message arrives.  Flushed
batches are paired with the instant at which the flush happens.

Branches map to processor.rs exactly as in `worker_loop`:
* untimed `rx.recv()` (line 197) returns at the message's arrival time
  (or observes closure at `closeTime`);
* size-threshold flush (lines 201-205) happens at the receive instant;
* the timed wait (line 208) starting at instant `t` delivers the next
  message iff it arrives by `t + timeoutMs`, else the timer fires and
  the batch is flushed at `t + timeoutMs` (lines 213-221);
* a message delivered by the timed wait is pushed with no size check
  and no flush (lines 209-211), and the loop returns to the untimed
  `rx.recv()`;
* when the channel closes during a wait, the drain flush (lines
  226-231) happens at the instant closure is observed; if the timer
  fires first, the flush happens at the timer instant and the untimed
  receive then observes closure with an empty batch. -/
def worker_loop_timed (batchSize timeoutMs closeTime : Nat) (now : Nat)
    (batch : List (KafkaMessage × Nat)) :
    List (KafkaMessage × Nat) → List (List (KafkaMessage × Nat) × Nat)
  | [] => if batch.isEmpty then [] else [(batch, max now closeTime)]
  | [m] =>
    let t := max now m.2
    let batch1 := batch ++ [m]
    if batchSize ≤ batch1.length then
      (batch1, t) :: worker_loop_timed batchSize timeoutMs closeTime t [] []
    else if closeTime ≤ t + timeoutMs then
      [(batch1, max t closeTime)]
    else
      [(batch1, t + timeoutMs)]
  | m :: m2 :: rest2 =>
    let t := max now m.2
    let batch1 := batch ++ [m]
    if batchSize ≤ batch1.length then
      (batch1, t) ::
        worker_loop_timed batchSize timeoutMs closeTime t [] (m2 :: rest2)
    else if m2.2 ≤ t + timeoutMs then
      worker_loop_timed batchSize timeoutMs closeTime (max t m2.2)
        (batch1 ++ [m2]) rest2
    else
      (batch1, t + timeoutMs) ::
        worker_loop_timed batchSize timeoutMs closeTime (t + timeoutMs) []
          (m2 :: rest2)

/-- Entry point of the timed worker loop at instant 0. -/
def run_processing_worker_timed (batchSize timeoutMs closeTime : Nat)
    (input : List (KafkaMessage × Nat)) :
    List (List (KafkaMessage × Nat) × Nat) :=
  worker_loop_timed batchSize timeoutMs closeTime 0 [] input

/-- C2: with `batch_size = 3` and `batch_timeout = 10`, two messages
arriving at instants 0 and 5 open a batch that never reaches
`batch_size`, yet the flush happens only when the channel closes at
instant 1000 — not within `batch_timeout` of the batch's first record
(instant 10).  After the timed wait delivers the second message, the
loop returns to the untimed `rx.recv()` (processor.rs line 197) with no
timer armed, so the open batch waits unboundedly. -/
theorem run_processing_worker_timed_latency_unbounded :
    run_processing_worker_timed 3 10 1000 [(mkMsg 0, 0), (mkMsg 1, 5)] =
      [([(mkMsg 0, 0), (mkMsg 1, 5)], 1000)] ∧
    [(mkMsg 0, 0), (mkMsg 1, 5)].length < 3 ∧ ¬(1000 ≤ 0 + 10) := by
  refine ⟨by rfl, by decide, by decide⟩

/-- Mirrors `ProcessingMetadata` (declared in the processor module and
persisted by storage.rs): processed_at timestamp, processor_version,
source topic, partition, offset. -/
structure ProcessingMetadata where
  processed_at : Int
  processor_version : String
  source_topic : String
  partition : Int
  offset : Int
deriving DecidableEq, Repr

/-- Mirrors `ProcessedMessage` (the row shape bound by
`store_processed_message`, storage.rs lines 191-199): id is the primary
key; original and processed payloads are kept abstract as strings
standing for their JSON serialisations. -/
structure ProcessedMessage where
  id : String
  original_message : String
  processed_message : String
  processing_metadata : ProcessingMetadata
deriving DecidableEq, Repr

/-- Semantics of the SQL statement `INSERT INTO processed_messages ...
ON CONFLICT (id) DO UPDATE SET ...` (storage.rs lines 175-189): the
table is an id-keyed list of rows; a conflicting id overwrites the
existing row in place, otherwise the row is appended. -/
def upsertRow (db : List ProcessedMessage) (m : ProcessedMessage) :
    List ProcessedMessage :=
  if db.any (fun r => r.id == m.id) then
    db.map (fun r => if r.id == m.id then m else r)
  else
    db ++ [m]

/-- `StorageManager::store_processed_message` (storage.rs lines
174-205): one upsert against the pool; `dbFails` stands for an I/O
failure of the underlying `execute`, in which case the error is
propagated and the table is unchanged. -/
def store_processed_message (dbFails : Bool) (db : List ProcessedMessage)
    (m : ProcessedMessage) : Except String (List ProcessedMessage) :=
  if dbFails then Except.error "Failed to store processed message"
  else Except.ok (upsertRow db m)

/-- Observable storage operations, used to state what a call executed. -/
inductive StorageOp where
  | beginTxn : StorageOp
  | execUpsert : String → StorageOp
  | commitTxn : StorageOp
deriving DecidableEq, Repr

/-- The per-message loop inside `store_processed_messages` (storage.rs
lines 214-243): each message is upserted against the open transaction;
`fails m` stands for the `execute` of that message's statement failing,
which short-circuits with `?`.  Returns the outcome, the transaction's
working table, and the operations executed. -/
def txn_loop (fails : ProcessedMessage → Bool)
    (txdb : List ProcessedMessage) (ops : List StorageOp) :
    List ProcessedMessage →
      Except String Unit × List ProcessedMessage × List StorageOp
  | [] => (Except.ok (), txdb, ops)
  | m :: rest =>
    if fails m then
      (Except.error "Failed to store processed message in batch", txdb, ops)
    else
      txn_loop fails (upsertRow txdb m) (ops ++ [StorageOp.execUpsert m.id]) rest

/-- `StorageManager::store_processed_messages` (storage.rs lines
207-249): an empty batch returns `Ok` immediately (lines 208-210)
without touching the pool; otherwise a transaction is begun, every
message is upserted inside it, and the transaction is committed only if
every upsert succeeded — an error drops the transaction, rolling back,
so the visible table stays the caller's `db`. -/
def store_processed_messages (fails : ProcessedMessage → Bool)
    (db : List ProcessedMessage) (msgs : List ProcessedMessage) :
    Except String Unit × List ProcessedMessage × List StorageOp :=
  if msgs.isEmpty then (Except.ok (), db, [])
  else
    match txn_loop fails db [StorageOp.beginTxn] msgs with
    | (Except.ok _, txdb, ops) =>
      (Except.ok (), txdb, ops ++ [StorageOp.commitTxn])
    | (Except.error e, _, ops) => (Except.error e, db, ops)

theorem txn_loop_ok (fails : ProcessedMessage → Bool) :
    ∀ (msgs : List ProcessedMessage) (txdb : List ProcessedMessage)
      (ops : List StorageOp), (∀ m ∈ msgs, fails m = false) →
      txn_loop fails txdb ops msgs =
        (Except.ok (), msgs.foldl upsertRow txdb,
          ops ++ msgs.map (fun m => StorageOp.execUpsert m.id)) := by
  intro msgs
  induction msgs with
  | nil => intro txdb ops _; simp [txn_loop]
  | cons m rest ih =>
    intro txdb ops hok
    have hm : fails m = false := hok m (by simp)
    simp only [txn_loop, hm, Bool.false_eq_true, if_false, List.foldl_cons,
      List.map_cons]
    rw [ih (upsertRow txdb m) (ops ++ [StorageOp.execUpsert m.id])
      (fun x hx => hok x (by simp [hx]))]
    simp

theorem txn_loop_err (fails : ProcessedMessage → Bool) :
    ∀ (msgs : List ProcessedMessage) (txdb : List ProcessedMessage)
      (ops : List StorageOp), (∃ m ∈ msgs, fails m = true) →
      (txn_loop fails txdb ops msgs).1 =
        Except.error "Failed to store processed message in batch" := by
  intro msgs
  induction msgs with
  | nil => intro txdb ops h; simp at h
  | cons m rest ih =>
    intro txdb ops h
    by_cases hm : fails m = true
    · simp [txn_loop, hm]
    · have : ∃ x ∈ rest, fails x = true := by
        rcases h with ⟨x, hx, hfx⟩
        rcases List.mem_cons.mp hx with rfl | hx2
        · exact absurd hfx hm
        · exact ⟨x, hx2, hfx⟩
      simp only [txn_loop, hm, Bool.false_eq_true, if_false]
      exact ih (upsertRow txdb m) (ops ++ [StorageOp.execUpsert m.id]) this

/-- C5: `store_processed_messages` is all-or-nothing.  If any message in
the batch fails to persist, the call returns the error and the visible
table is exactly the table before the call (the dropped transaction
rolls back); if every message persists, the call commits and the
visible table is the fold of the per-message upserts. -/
theorem store_processed_messages_atomic (fails : ProcessedMessage → Bool)
    (db msgs : List ProcessedMessage) :
    ((∃ m ∈ msgs, fails m = true) →
      (store_processed_messages fails db msgs).1 =
          Except.error "Failed to store processed message in batch" ∧
        (store_processed_messages fails db msgs).2.1 = db) ∧
    ((∀ m ∈ msgs, fails m = false) →
      (store_processed_messages fails db msgs).1 = Except.ok () ∧
        (store_processed_messages fails db msgs).2.1 =
          msgs.foldl upsertRow db) := by
  constructor
  · intro hex
    have hne : msgs.isEmpty = false := by
      rcases hex with ⟨m, hm, _⟩
      cases msgs with
      | nil => simp at hm
      | cons a l => simp
    have herr := txn_loop_err fails msgs db [StorageOp.beginTxn] hex
    simp only [store_processed_messages, hne, Bool.false_eq_true, if_false]
    rcases hres : txn_loop fails db [StorageOp.beginTxn] msgs with ⟨r, txdb, ops⟩
    rw [hres] at herr
    simp only at herr
    subst herr
    simp
  · intro hok
    by_cases hne : msgs.isEmpty
    · have : msgs = [] := List.isEmpty_iff.mp hne
      subst this
      simp [store_processed_messages]
    · simp only [store_processed_messages, hne, if_false]
      rw [txn_loop_ok fails msgs db [StorageOp.beginTxn] hok]
      simp

/-- Witness for `store_processed_messages_atomic` at concrete inputs:
a batch whose second message fails rolls back, and a batch with no
failures commits the upserts. -/
theorem store_processed_messages_atomic_witness :
    (store_processed_messages (fun m => m.id == "b") []
        [⟨"a", "oa", "pa", ⟨0, "v1", "t", 0, 0⟩⟩,
         ⟨"b", "ob", "pb", ⟨0, "v1", "t", 0, 1⟩⟩]).2.1 = [] ∧
    (store_processed_messages (fun _ => false) []
        [⟨"a", "oa", "pa", ⟨0, "v1", "t", 0, 0⟩⟩]).1 = Except.ok () := by
  constructor
  · exact ((store_processed_messages_atomic (fun m => m.id == "b") []
      [⟨"a", "oa", "pa", ⟨0, "v1", "t", 0, 0⟩⟩,
       ⟨"b", "ob", "pb", ⟨0, "v1", "t", 0, 1⟩⟩]).1 (by decide)).2
  · exact ((store_processed_messages_atomic (fun _ => false) []
      [⟨"a", "oa", "pa", ⟨0, "v1", "t", 0, 0⟩⟩]).2 (by decide)).1

/-- C10: a batch write of zero messages returns success, executes no
storage operation (in particular begins no transaction), and leaves the
table unchanged. -/
theorem store_processed_messages_empty_noop (fails : ProcessedMessage → Bool)
    (db : List ProcessedMessage) :
    store_processed_messages fails db [] = (Except.ok (), db, []) := by
  simp [store_processed_messages]

theorem upsertRow_mem_eq (db : List ProcessedMessage) (m : ProcessedMessage) :
    ∀ r ∈ upsertRow db m, r.id = m.id → r = m := by
  intro r hr hid
  unfold upsertRow at hr
  by_cases hany : (db.any (fun x => x.id == m.id)) = true
  · rw [if_pos hany] at hr
    rcases List.mem_map.mp hr with ⟨x, hx, hfx⟩
    by_cases hxid : (x.id == m.id) = true
    · rw [if_pos hxid] at hfx
      exact hfx.symm
    · rw [if_neg hxid] at hfx
      subst hfx
      exact absurd (beq_iff_eq.mpr hid) hxid
  · rw [if_neg hany] at hr
    have hfalse : db.any (fun x => x.id == m.id) = false := by
      simpa using hany
    rcases List.mem_append.mp hr with hx | hx
    · exact absurd (beq_iff_eq.mpr hid) (List.any_eq_false.mp hfalse r hx)
    · simpa using hx

theorem countP_upsertRow (db : List ProcessedMessage) (m : ProcessedMessage)
    (hpk : db.countP (fun r => r.id == m.id) ≤ 1) :
    (upsertRow db m).countP (fun r => r.id == m.id) = 1 := by
  unfold upsertRow
  by_cases hany : (db.any (fun x => x.id == m.id)) = true
  · rw [if_pos hany, List.countP_map]
    have hcong : ∀ x ∈ db,
        (((fun r => r.id == m.id) ∘
            fun r => if r.id == m.id then m else r) x = true ↔
          (x.id == m.id) = true) := by
      intro x _
      simp only [Function.comp_apply]
      by_cases hxid : (x.id == m.id) = true
      · rw [if_pos hxid, hxid]
        simp
      · rw [if_neg hxid]
    rw [List.countP_congr hcong]
    rcases List.any_eq_true.mp hany with ⟨x, hx, hfx⟩
    have hpos : 0 < db.countP (fun r => r.id == m.id) :=
      List.countP_pos_iff.mpr ⟨x, hx, hfx⟩
    omega
  · rw [if_neg hany, List.countP_append]
    have hfalse : db.any (fun x => x.id == m.id) = false := by
      simpa using hany
    have hzero : db.countP (fun r => r.id == m.id) = 0 := by
      rw [List.countP_eq_zero]
      exact List.any_eq_false.mp hfalse
    simp [hzero, List.countP_cons]

theorem upsertRow_self (db : List ProcessedMessage) (m : ProcessedMessage)
    (hmem : ∃ r ∈ db, r.id = m.id) (hall : ∀ r ∈ db, r.id = m.id → r = m) :
    upsertRow db m = db := by
  unfold upsertRow
  have hany : db.any (fun x => x.id == m.id) = true := by
    rcases hmem with ⟨r, hr, hid⟩
    exact List.any_eq_true.mpr ⟨r, hr, beq_iff_eq.mpr hid⟩
  rw [if_pos hany]
  have hpt : ∀ r ∈ db, (if r.id == m.id then m else r) = r := by
    intro r hr
    by_cases hid : (r.id == m.id) = true
    · rw [if_pos hid, hall r hr (beq_iff_eq.mp hid)]
    · rw [if_neg hid]
  rw [List.map_congr_left hpt, List.map_id']

theorem filter_upsertRow (db : List ProcessedMessage) (m : ProcessedMessage)
    (hpk : db.countP (fun r => r.id == m.id) ≤ 1) :
    (upsertRow db m).filter (fun r => r.id == m.id) = [m] := by
  have hlen : ((upsertRow db m).filter (fun r => r.id == m.id)).length = 1 := by
    rw [← List.countP_eq_length_filter]
    exact countP_upsertRow db m hpk
  rcases List.length_eq_one.mp hlen with ⟨a, ha⟩
  have hamem : a ∈ (upsertRow db m).filter (fun r => r.id == m.id) := by
    rw [ha]; simp
  have hsplit := List.mem_filter.mp hamem
  rw [ha, upsertRow_mem_eq db m a hsplit.1 (beq_iff_eq.mp hsplit.2)]

/-- C6: writing twice with the same id via `store_processed_message`
leaves exactly one row for that id, whose content is the latest write,
and repeating the identical write changes nothing.  `hpk` is the
primary-key invariant of the `processed_messages` table (at most one
row per id). -/
theorem store_processed_message_upsert_idempotent
    (db : List ProcessedMessage) (m1 m2 : ProcessedMessage)
    (hid : m1.id = m2.id)
    (hpk : db.countP (fun r => r.id == m2.id) ≤ 1) :
    store_processed_message false db m1 = Except.ok (upsertRow db m1) ∧
    store_processed_message false (upsertRow db m1) m2 =
      Except.ok (upsertRow (upsertRow db m1) m2) ∧
    (upsertRow (upsertRow db m1) m2).filter (fun r => r.id == m2.id) =
      [m2] ∧
    upsertRow (upsertRow (upsertRow db m1) m2) m2 =
      upsertRow (upsertRow db m1) m2 := by
  have hpk1 : (upsertRow db m1).countP (fun r => r.id == m2.id) ≤ 1 := by
    have := countP_upsertRow db m1 (by rw [hid]; exact hpk)
    rw [hid] at this
    omega
  have hfilter := filter_upsertRow (upsertRow db m1) m2 hpk1
  refine ⟨rfl, rfl, hfilter, ?_⟩
  apply upsertRow_self
  · have hm2 : m2 ∈ (upsertRow (upsertRow db m1) m2).filter
        (fun r => r.id == m2.id) := by
      rw [hfilter]; simp
    exact ⟨m2, (List.mem_filter.mp hm2).1, rfl⟩
  · exact upsertRow_mem_eq (upsertRow db m1) m2

/-- Witness for `store_processed_message_upsert_idempotent` at concrete
inputs. -/
theorem store_processed_message_upsert_idempotent_witness :
    ("a" : String) = "a" ∧ ([] : List ProcessedMessage).countP
        (fun r => r.id == "a") ≤ 1 ∧
    (upsertRow (upsertRow []
        ⟨"a", "o1", "p1", ⟨0, "v1", "t", 0, 0⟩⟩)
        ⟨"a", "o2", "p2", ⟨1, "v2", "t", 0, 1⟩⟩).filter
      (fun r => r.id == "a") = [⟨"a", "o2", "p2", ⟨1, "v2", "t", 0, 1⟩⟩] := by
  refine ⟨rfl, by decide, ?_⟩
  have h := store_processed_message_upsert_idempotent []
    ⟨"a", "o1", "p1", ⟨0, "v1", "t", 0, 0⟩⟩
    ⟨"a", "o2", "p2", ⟨1, "v2", "t", 0, 1⟩⟩ rfl (by decide)
  exact h.2.2.1

/-- An assigned topic partition, as returned by `consumer.assignment()`
(kafka.rs line 140). -/
structure AssignedTopicPartition where
  topic : String
  partition : Int
deriving DecidableEq, Repr

/-- `KafkaManager::get_consumer_lag` (kafka.rs lines 136-162): for each
configured input topic, for each assigned partition of that topic, the
reported lag is the high watermark minus the committed offset, where a
partition with no committed offset contributes `-1`
(`.unwrap_or(-1)`, line 150).  The broker answers are abstracted as the
functions `highWatermark` and `committedOffset`. -/
def get_consumer_lag (inputTopics : List String)
    (assignment : List AssignedTopicPartition)
    (highWatermark : String → Int → Int)
    (committedOffset : String → Int → Option Int) : List (Int × Int) :=
  inputTopics.flatMap (fun topic =>
    (assignment.filter (fun p => p.topic == topic)).map (fun p =>
      (p.partition,
        highWatermark p.topic p.partition -
          (committedOffset p.topic p.partition).getD (-1))))

/-- C7: every partition of a configured input topic that is currently
assigned to the consumer is reported with
lag = high_watermark − committed_offset, the committed offset being
taken as −1 when the partition has none. -/
theorem get_consumer_lag_reports_lag (inputTopics : List String)
    (assignment : List AssignedTopicPartition)
    (highWatermark : String → Int → Int)
    (committedOffset : String → Int → Option Int)
    (tp : AssignedTopicPartition) (hmem : tp ∈ assignment)
    (htopic : tp.topic ∈ inputTopics) :
    (tp.partition,
        highWatermark tp.topic tp.partition -
          (committedOffset tp.topic tp.partition).getD (-1)) ∈
      get_consumer_lag inputTopics assignment highWatermark committedOffset := by
  unfold get_consumer_lag
  exact List.mem_flatMap.mpr
    ⟨tp.topic, htopic, List.mem_map.mpr
      ⟨tp, List.mem_filter.mpr ⟨hmem, beq_self_eq_true _⟩, rfl⟩⟩

/-- Witness for `get_consumer_lag_reports_lag`: with high_watermark 100
and committed offset 40 the reported lag is 60; with no committed
offset it is 101. -/
theorem get_consumer_lag_reports_lag_witness :
    ((0 : Int), (60 : Int)) ∈
      get_consumer_lag ["t"] [⟨"t", 0⟩] (fun _ _ => 100)
        (fun _ _ => some 40) ∧
    ((0 : Int), (101 : Int)) ∈
      get_consumer_lag ["t"] [⟨"t", 0⟩] (fun _ _ => 100) (fun _ _ => none) := by
  constructor
  · have h := get_consumer_lag_reports_lag ["t"] [⟨"t", 0⟩] (fun _ _ => 100)
      (fun _ _ => some 40) ⟨"t", 0⟩ (by decide) (by decide)
    simpa using h
  · have h := get_consumer_lag_reports_lag ["t"] [⟨"t", 0⟩] (fun _ _ => 100)
      (fun _ _ => none) ⟨"t", 0⟩ (by decide) (by decide)
    simpa using h

/-- `KafkaManager::send_batch_messages` (kafka.rs lines 88-134): one
send future per (key, payload) entry, all awaited together; the loop
over their results (lines 114-122) counts successes and failures with
two counters, the counts are logged, and the function returns `Ok(())`
regardless.  `sendFails i` stands for the broker failing the i-th send.
The returned triple is (the Rust return value, success_count,
error_count); only the first component reaches the caller. -/
def send_batch_messages (sendFails : Nat → Bool)
    (messages : List (Option String × List Nat)) :
    Except String Unit × Nat × Nat :=
  let results := (List.range messages.length).map sendFails
  let counts := results.foldl
    (fun acc failed =>
      if failed then (acc.1, acc.2 + 1) else (acc.1 + 1, acc.2))
    (0, 0)
  (Except.ok (), counts.1, counts.2)

theorem send_counts_foldl :
    ∀ (l : List Bool) (a b : Nat),
      l.foldl (fun acc failed =>
          if failed then (acc.1, acc.2 + 1) else (acc.1 + 1, acc.2)) (a, b) =
        (a + l.countP (fun x => !x), b + l.countP (fun x => x)) := by
  intro l
  induction l with
  | nil => intro a b; simp
  | cons x xs ih =>
    intro a b
    cases x with
    | true =>
      simp only [List.foldl_cons, if_true, ih, List.countP_cons,
        Prod.mk.injEq, Bool.not_true, Bool.false_eq_true, if_false]
      omega
    | false =>
      simp only [List.foldl_cons, Bool.false_eq_true, if_false, ih,
        List.countP_cons, Prod.mk.injEq, Bool.not_false, if_true]
      omega

/-- C8 counterexample: a batch whose single send fails produces exactly
the same return value as a batch whose single send succeeds — `Ok(())`
with no counts attached — so the caller cannot inspect success/failure
counts; they are only computed internally (and logged). -/
theorem send_batch_messages_return_opaque_cex :
    (send_batch_messages (fun _ => true) [(none, [0])]).1 =
      (send_batch_messages (fun _ => false) [(none, [0])]).1 ∧
    (send_batch_messages (fun _ => true) [(none, [0])]).2.2 = 1 ∧
    (send_batch_messages (fun _ => false) [(none, [0])]).2.2 = 0 := by
  exact ⟨rfl, rfl, rfl⟩

/-- C8 amended: `send_batch_messages` issues one send per message,
never fails the batch as a whole (the Rust return value is `Ok(())`
even when some sends fail), and internally counts exactly the
successful and failed sends — but those counts are only logged, not
returned, so the caller cannot detect partial failure from the return
value. -/
theorem send_batch_messages_counts (sendFails : Nat → Bool)
    (messages : List (Option String × List Nat)) :
    (send_batch_messages sendFails messages).1 = Except.ok () ∧
    (send_batch_messages sendFails messages).2.1 =
      (List.range messages.length).countP (fun i => !(sendFails i)) ∧
    (send_batch_messages sendFails messages).2.2 =
      (List.range messages.length).countP sendFails := by
  unfold send_batch_messages
  refine ⟨rfl, ?_, ?_⟩ <;>
    · simp only [send_counts_foldl]
      simp [List.countP_map, Function.comp_def]

/-- The gRPC error statuses the service constructs
(src/services/stream-processor/src/main.rs uses only
`Status::internal`). -/
inductive GrpcStatus where
  | internal : String → GrpcStatus
deriving DecidableEq, Repr

/-- Mirrors `StartProcessingResponse` (main.rs lines 44-57). -/
structure StartProcessingResponse where
  success : Bool
  job_id : String
  message : String
deriving DecidableEq, Repr

/-- Mirrors `StopProcessingResponse` (main.rs lines 72-82). -/
structure StopProcessingResponse where
  success : Bool
  message : String
deriving DecidableEq, Repr

/-- The snapshot returned by `processor.get_pipeline_status` (consumed
by main.rs lines 96-102). -/
structure PipelineStatusSnapshot where
  status : String
  metrics : String
  start_time : Int
  last_update : Int
deriving DecidableEq, Repr

/-- Mirrors `GetProcessingStatusResponse` (main.rs lines 96-102). -/
structure GetProcessingStatusResponse where
  status : String
  job_id : String
  metrics : String
  start_time : Option Int
  last_update : Option Int
deriving DecidableEq, Repr

/-- `StreamProcessorService::start_processing` (main.rs lines 33-59):
the underlying `processor.start_pipeline` result is the argument; any
of its errors becomes a structured `success = false` response, never an
RPC error status. -/
def start_processing (result : Except String String) :
    Except GrpcStatus StartProcessingResponse :=
  match result with
  | Except.ok jobId =>
    Except.ok { success := true, job_id := jobId,
                message := "Processing started successfully" }
  | Except.error e =>
    Except.ok { success := false, job_id := "",
                message := "Failed to start processing: " ++ e }

/-- `StreamProcessorService::stop_processing` (main.rs lines 61-85):
any error of the underlying `processor.stop_pipeline` becomes a
structured `success = false` response. -/
def stop_processing (result : Except String Unit) :
    Except GrpcStatus StopProcessingResponse :=
  match result with
  | Except.ok _ =>
    Except.ok { success := true,
                message := "Processing stopped successfully" }
  | Except.error e =>
    Except.ok { success := false,
                message := "Failed to stop processing: " ++ e }

/-- `StreamProcessorService::get_processing_status` (main.rs lines
87-109): a successful `processor.get_pipeline_status` is returned as a
snapshot; every error — expected or not — is mapped to
`Status::internal` (line 106), an RPC error status. -/
def get_processing_status (jobId : String)
    (result : Except String PipelineStatusSnapshot) :
    Except GrpcStatus GetProcessingStatusResponse :=
  match result with
  | Except.ok s =>
    Except.ok { status := s.status, job_id := jobId, metrics := s.metrics,
                start_time := some s.start_time,
                last_update := some s.last_update }
  | Except.error e =>
    Except.error (GrpcStatus.internal ("Failed to get status: " ++ e))

/-- C9 counterexample: a status query for an unknown job — an expected
failure of the underlying operation — is answered with an RPC
`internal` error status, not with a structured `success = false`
response, so the claim fails for `GetProcessingStatus`. -/
theorem get_processing_status_rpc_error_cex :
    get_processing_status "unknown-job"
        (Except.error "Pipeline not found: unknown-job") =
      Except.error
        (GrpcStatus.internal
          "Failed to get status: Pipeline not found: unknown-job") := by
  rfl

/-- C9 amended: `StartProcessing` and `StopProcessing` map every
underlying failure to a structured `success = false` response (never an
RPC error status), while `GetProcessingStatus` maps every underlying
failure — including expected ones such as an unknown job id — to a
generic internal RPC error status. -/
theorem control_plane_failure_mapping (e jobId : String) :
    start_processing (Except.error e) =
      Except.ok { success := false, job_id := "",
                  message := "Failed to start processing: " ++ e } ∧
    stop_processing (Except.error e) =
      Except.ok { success := false,
                  message := "Failed to stop processing: " ++ e } ∧
    get_processing_status jobId (Except.error e) =
      Except.error (GrpcStatus.internal ("Failed to get status: " ++ e)) := by
  exact ⟨rfl, rfl, rfl⟩

/-- Outcome of processing one record: either a processed message bound
for the Persistence Writer, or dead-lettered to a topic with a payload.
-/
inductive ProcessOutcome where
  | processed : ProcessedMessage → ProcessOutcome
  | deadLettered : String → List Nat → ProcessOutcome
deriving DecidableEq, Repr

/-- The attempt loop behind `process_message_with_retry`: try the pure
transformation at attempt indices `i, i+1, ...` while attempts remain;
`attempt j = none` means the j-th attempt fails.  Returns the produced
message and the number of attempts consumed, or `none` when every
allowed attempt failed. -/
def attempt_loop (attempt : Nat → Option ProcessedMessage) :
    Nat → Nat → Option (ProcessedMessage × Nat)
  | _, 0 => none
  | i, Nat.succ remaining =>
    match attempt i with
    | some pm => some (pm, i + 1)
    | none => attempt_loop attempt (i + 1) remaining

/-- Modelled from the spec: `MessageProcessor::process_message`
(referenced from processor.rs line 248) lives in
src/apps/stream-processor/src/processing.rs, which is not in the
source tree; this follows specification section 4.3 and the config
fields `retry_attempts` / `retry_delay` / `dead_letter_queue_topic`
(config.rs lines 58-60).  A record is attempted up to
`retry_attempts + 1` times with a fixed delay between attempts; the
first success yields a `ProcessedMessage` handed onward to the
Persistence Writer; if every attempt fails the record is published to
the dead-letter topic with its original payload and nothing is written
to storage.  Returns (outcome, attempts made, total delay waited,
storage operations issued). -/
def process_message_with_retry (retryAttempts retryDelayMs : Nat)
    (deadLetterTopic : String) (attempt : Nat → Option ProcessedMessage)
    (msg : KafkaMessage) : ProcessOutcome × Nat × Nat × List StorageOp :=
  match attempt_loop attempt 0 (retryAttempts + 1) with
  | some (pm, used) =>
    (ProcessOutcome.processed pm, used, (used - 1) * retryDelayMs,
      [StorageOp.execUpsert pm.id])
  | none =>
    (ProcessOutcome.deadLettered deadLetterTopic msg.payload,
      retryAttempts + 1, retryAttempts * retryDelayMs, [])

theorem attempt_loop_none (attempt : Nat → Option ProcessedMessage) :
    ∀ (remaining i : Nat), (∀ j, i ≤ j → j < i + remaining → attempt j = none) →
      attempt_loop attempt i remaining = none := by
  intro remaining
  induction remaining with
  | zero => intro i _; rfl
  | succ r ih =>
    intro i hall
    have h0 : attempt i = none := hall i (Nat.le_refl i) (by omega)
    simp only [attempt_loop, h0]
    exact ih (i + 1) (fun j hj1 hj2 => hall j (by omega) (by omega))

/-- C4: a record whose processing fails on all `retry_attempts + 1`
attempts is dead-lettered to the configured topic with its original
payload intact, after exactly `retry_attempts + 1` attempts separated
by the configured delay, and no storage write is issued for it. -/
theorem process_message_dead_letter (retryAttempts retryDelayMs : Nat)
    (deadLetterTopic : String) (attempt : Nat → Option ProcessedMessage)
    (msg : KafkaMessage)
    (hfail : ∀ j < retryAttempts + 1, attempt j = none) :
    process_message_with_retry retryAttempts retryDelayMs deadLetterTopic
        attempt msg =
      (ProcessOutcome.deadLettered deadLetterTopic msg.payload,
        retryAttempts + 1, retryAttempts * retryDelayMs, []) := by
  unfold process_message_with_retry
  rw [attempt_loop_none attempt (retryAttempts + 1) 0
    (fun j _ hj2 => hfail j (by omega))]

/-- Witness for `process_message_dead_letter` at a concrete input:
retry budget 2 (three attempts), all failing. -/
theorem process_message_dead_letter_witness :
    (∀ j < 2 + 1, (fun _ => (none : Option ProcessedMessage)) j = none) ∧
    process_message_with_retry 2 500 "dead-letter" (fun _ => none)
        (mkMsg 0) =
      (ProcessOutcome.deadLettered "dead-letter" [], 2 + 1, 2 * 500, []) :=
  ⟨fun _ _ => rfl,
    process_message_dead_letter 2 500 "dead-letter" (fun _ => none) (mkMsg 0)
      (fun _ _ => rfl)⟩
